import Mathlib

/-!
Verification of the payload-ab A/B-testing plugin.

The JSON-like document values manipulated by the plugin are modelled by the
mutual inductive family `JsonValue` / `JsonList` / `JsonFields` (a JS object
is an ordered association list of string keys with unique keys; a JS array
is a list).  All plugin functions are translated from the TypeScript source
into structurally recursive Lean definitions so that they evaluate by `rfl`
or `decide` on concrete inputs.
-/

mutual

inductive JsonValue where
  | null
  | bool (b : Bool)
  | str (s : String)
  | num (n : Int)
  | arr (xs : JsonList)
  | obj (fs : JsonFields)

inductive JsonList where
  | nil
  | cons (hd : JsonValue) (tl : JsonList)

inductive JsonFields where
  | nil
  | cons (key : String) (val : JsonValue) (tl : JsonFields)

end

/-- JS truthiness of a defined value (`undefined` is handled via `Option`
at use sites): `null`, `false`, `0` and `""` are falsy, arrays and objects
are always truthy. -/
def truthy : JsonValue → Bool
  | .null => false
  | .bool b => b
  | .str s => !(s == "")
  | .num n => !(n == 0)
  | .arr _ => true
  | .obj _ => true

/-- JS truthiness of a possibly-`undefined` value (`none` = `undefined`). -/
def optTruthy : Option JsonValue → Bool
  | none => false
  | some v => truthy v

/-- JS test `typeof v === 'object'`: true for `null`, arrays and objects. -/
def isTypeofObject : JsonValue → Bool
  | .null => true
  | .arr _ => true
  | .obj _ => true
  | _ => false

/-- True exactly for arrays and objects (a truthy value of object type). -/
def isObjectLike : JsonValue → Bool
  | .arr _ => true
  | .obj _ => true
  | _ => false

/-- JS `a || b` on possibly-undefined values: the first operand if it is
defined and truthy, otherwise the second operand. -/
def jsOr (a b : Option JsonValue) : Option JsonValue :=
  if optTruthy a then a else b

/-- First-match lookup of a key, mirroring JS property access on an object
whose keys are unique. -/
def JsonFields.get? : JsonFields → String → Option JsonValue
  | .nil, _ => none
  | .cons k' v t, k => if k' == k then some v else t.get? k

/-- JS property assignment `o[k] = v`: replaces the value at an existing key
in place, otherwise appends the key at the end. -/
def JsonFields.set : JsonFields → String → JsonValue → JsonFields
  | .nil, k, v => .cons k v .nil
  | .cons k' v' t, k, v => if k' == k then .cons k' v t else .cons k' v' (t.set k v)

def JsonFields.hasKey : JsonFields → String → Bool
  | .nil, _ => false
  | .cons k' _ t, k => k' == k || t.hasKey k

/-- JS `delete o[k]` generalised to a key-set filter (objects have unique
keys, so removing every occurrence agrees with JS `delete`). -/
def JsonFields.eraseKeys : JsonFields → List String → JsonFields
  | .nil, _ => .nil
  | .cons k v t, ks => if ks.contains k then t.eraseKeys ks else .cons k v (t.eraseKeys ks)

/-- JS optional-chain property access `v?.k`: a key lookup when `v` is an
object, `undefined` otherwise. -/
def getField : JsonValue → String → Option JsonValue
  | .obj fs, k => fs.get? k
  | _, _ => none

/-- The Payload/MongoDB system keys deleted by `sanitizeObject`
(src/src/index.ts lines 71-75). -/
def systemKeys : List String := ["id", "_id", "__v", "createdAt", "updatedAt"]

mutual

/-- Translation of `sanitizeObject` (src/src/index.ts lines 58-85):
non-objects pass through, arrays are sanitized element-wise, objects are
shallow-copied with the system keys deleted and every remaining property
whose value is a non-null object sanitized recursively. -/
def sanitizeObject : JsonValue → JsonValue
  | .null => .null
  | .bool b => .bool b
  | .str s => .str s
  | .num n => .num n
  | .arr xs => .arr (sanitizeList xs)
  | .obj fs => .obj (sanitizeFields fs)

def sanitizeList : JsonList → JsonList
  | .nil => .nil
  | .cons h t => .cons (sanitizeObject h) (sanitizeList t)

/-- One pass over an object's properties fusing the source's two steps:
the `delete` of each system key from the shallow copy, then the recursive
sanitization of every remaining property whose value is a non-null object. -/
def sanitizeFields : JsonFields → JsonFields
  | .nil => .nil
  | .cons k v t =>
      if systemKeys.contains k then sanitizeFields t
      else .cons k (if isObjectLike v then sanitizeObject v else v) (sanitizeFields t)

end

mutual

/-- No system key occurs at any nesting depth of the value. -/
def noSystemKeys : JsonValue → Bool
  | .null => true
  | .bool _ => true
  | .str _ => true
  | .num _ => true
  | .arr xs => noSystemKeysList xs
  | .obj fs => noSystemKeysFields fs

def noSystemKeysList : JsonList → Bool
  | .nil => true
  | .cons h t => noSystemKeys h && noSystemKeysList t

def noSystemKeysFields : JsonFields → Bool
  | .nil => true
  | .cons k v t => !(systemKeys.contains k) && noSystemKeys v && noSystemKeysFields t

end

theorem isObjectLike_sanitize (v : JsonValue) :
    isObjectLike (sanitizeObject v) = isObjectLike v := by
  cases v <;> rfl

theorem sanitize_of_not_objectLike (v : JsonValue) (h : isObjectLike v = false) :
    sanitizeObject v = v := by
  cases v <;> first | rfl | simp [isObjectLike] at h

theorem noSystemKeys_of_not_objectLike (v : JsonValue) (h : isObjectLike v = false) :
    noSystemKeys v = true := by
  cases v <;> first | rfl | simp [isObjectLike] at h

mutual

theorem noSystemKeys_sanitize : ∀ v : JsonValue, noSystemKeys (sanitizeObject v) = true
  | .null => rfl
  | .bool _ => rfl
  | .str _ => rfl
  | .num _ => rfl
  | .arr xs => noSystemKeysList_sanitize xs
  | .obj fs => noSystemKeysFields_sanitize fs

theorem noSystemKeysList_sanitize : ∀ xs : JsonList, noSystemKeysList (sanitizeList xs) = true
  | .nil => rfl
  | .cons h t => by
      simp only [sanitizeList, noSystemKeysList, Bool.and_eq_true]
      exact ⟨noSystemKeys_sanitize h, noSystemKeysList_sanitize t⟩

theorem noSystemKeysFields_sanitize :
    ∀ fs : JsonFields, noSystemKeysFields (sanitizeFields fs) = true
  | .nil => rfl
  | .cons k v t => by
      by_cases hk : systemKeys.contains k = true
      · simp only [sanitizeFields, hk, if_true]
        exact noSystemKeysFields_sanitize t
      · simp only [sanitizeFields, hk, Bool.false_eq_true, if_false, noSystemKeysFields,
          Bool.and_eq_true]
        refine ⟨⟨by simp [hk], ?_⟩, noSystemKeysFields_sanitize t⟩
        by_cases ho : isObjectLike v = true
        · rw [if_pos ho]; exact noSystemKeys_sanitize v
        · rw [if_neg ho]
          exact noSystemKeys_of_not_objectLike v (by simpa using ho)

end

mutual

theorem sanitize_idem : ∀ v : JsonValue, sanitizeObject (sanitizeObject v) = sanitizeObject v
  | .null => rfl
  | .bool _ => rfl
  | .str _ => rfl
  | .num _ => rfl
  | .arr xs => congrArg JsonValue.arr (sanitizeList_idem xs)
  | .obj fs => congrArg JsonValue.obj (sanitizeFields_idem fs)

theorem sanitizeList_idem : ∀ xs : JsonList, sanitizeList (sanitizeList xs) = sanitizeList xs
  | .nil => rfl
  | .cons h t => by
      simp only [sanitizeList]
      rw [sanitize_idem h, sanitizeList_idem t]

theorem sanitizeFields_idem :
    ∀ fs : JsonFields, sanitizeFields (sanitizeFields fs) = sanitizeFields fs
  | .nil => rfl
  | .cons k v t => by
      by_cases hk : systemKeys.contains k = true
      · simp only [sanitizeFields, hk, if_true]
        exact sanitizeFields_idem t
      · simp only [sanitizeFields, hk, Bool.false_eq_true, if_false]
        rw [sanitizeFields_idem t]
        by_cases ho : isObjectLike v = true
        · rw [if_pos ho, if_pos (by rw [isObjectLike_sanitize]; exact ho), sanitize_idem v]
        · rw [if_neg ho, if_neg ho]

end

example :
    sanitizeObject (.obj (.cons "id" (.str "x")
      (.cons "a" (.obj (.cons "createdAt" (.str "d") (.cons "b" (.num 1) .nil))) .nil))) =
    .obj (.cons "a" (.obj (.cons "b" (.num 1) .nil)) .nil) := rfl

theorem get?_set_self : ∀ (fs : JsonFields) (k : String) (v : JsonValue),
    (fs.set k v).get? k = some v
  | .nil, k, v => by simp [JsonFields.set, JsonFields.get?]
  | .cons k' v' t, k, v => by
      by_cases h : k' = k
      · subst h; simp [JsonFields.set, JsonFields.get?]
      · have hb : (k' == k) = false := beq_eq_false_iff_ne.mpr h
        simp only [JsonFields.set, hb, Bool.false_eq_true, if_false, JsonFields.get?]
        exact get?_set_self t k v

theorem get?_set_ne : ∀ (fs : JsonFields) (k : String) (v : JsonValue) (k2 : String),
    k2 ≠ k → (fs.set k v).get? k2 = fs.get? k2
  | .nil, k, v, k2, h => by
      have hb : (k == k2) = false := beq_eq_false_iff_ne.mpr (Ne.symm h)
      simp [JsonFields.set, JsonFields.get?, hb]
  | .cons k' v' t, k, v, k2, h => by
      by_cases hk : k' = k
      · subst hk
        have hb : (k' == k2) = false := beq_eq_false_iff_ne.mpr (Ne.symm h)
        simp [JsonFields.set, JsonFields.get?, hb]
      · have hb : (k' == k) = false := beq_eq_false_iff_ne.mpr hk
        by_cases hk2 : k' = k2
        · subst hk2
          simp [JsonFields.set, JsonFields.get?, hb]
        · have hb2 : (k' == k2) = false := beq_eq_false_iff_ne.mpr hk2
          simp only [JsonFields.set, hb, Bool.false_eq_true, if_false, JsonFields.get?, hb2]
          exact get?_set_ne t k v k2 h

theorem hasKey_set : ∀ (fs : JsonFields) (k : String) (v : JsonValue) (k2 : String),
    ((fs.set k v).hasKey k2 = true) ↔ (fs.hasKey k2 = true ∨ k2 = k)
  | .nil, k, v, k2 => by
      simp only [JsonFields.set, JsonFields.hasKey, Bool.or_false, beq_iff_eq,
        Bool.false_eq_true, false_or]
      exact ⟨fun h => h.symm, fun h => h.symm⟩
  | .cons k' v' t, k, v, k2 => by
      by_cases hk : k' = k
      · subst hk
        simp only [JsonFields.set, beq_self_eq_true, if_true, JsonFields.hasKey,
          Bool.or_eq_true, beq_iff_eq]
        constructor
        · intro h; exact Or.inl h
        · rintro (h | h)
          · exact h
          · exact Or.inl h.symm
      · have hb : (k' == k) = false := beq_eq_false_iff_ne.mpr hk
        simp only [JsonFields.set, hb, Bool.false_eq_true, if_false, JsonFields.hasKey,
          Bool.or_eq_true, hasKey_set t k v k2, beq_iff_eq]
        tauto

/-- A document (Payload `data` / `originalDoc`) is a JS object. -/
abbrev Doc := JsonFields

mutual

/-- JS string coercion as used inside template literals. Array elements
render via `Array.prototype.join(",")`, where a `null` element renders
empty. -/
def jsToString : JsonValue → String
  | .null => "null"
  | .bool b => cond b "true" "false"
  | .str s => s
  | .num n => toString n
  | .arr xs => jsToStringArr xs
  | .obj _ => "[object Object]"

def jsToStringArr : JsonList → String
  | .nil => ""
  | .cons h .nil =>
      match h with
      | .null => ""
      | v => jsToString v
  | .cons h (.cons h2 t) =>
      (match h with
       | .null => ""
       | v => jsToString v) ++ "," ++ jsToStringArr (.cons h2 t)

end

/-- JS string coercion of a possibly-`undefined` value. -/
def optToString : Option JsonValue → String
  | none => "undefined"
  | some v => jsToString v

def indexedFields (i : Nat) : JsonList → JsonFields
  | .nil => .nil
  | .cons h t => .cons (toString i) h (indexedFields (i + 1) t)

def indexedChars (i : Nat) : List Char → JsonFields
  | [] => .nil
  | c :: cs => .cons (toString i) (.str (String.singleton c)) (indexedChars (i + 1) cs)

/-- JS object spread `\x7b ...v \x7d`: an object contributes its own
properties, an array or string contributes index-keyed properties, and any
other primitive contributes nothing. -/
def jsSpread : JsonValue → JsonFields
  | .obj fs => fs
  | .arr xs => indexedFields 0 xs
  | .str s => indexedChars 0 s.toList
  | _ => .nil

/-- JS `a || b || c`: the first truthy operand, or the last operand. -/
def jsOr3 (a b c : Option JsonValue) : Option JsonValue :=
  jsOr a (jsOr b c)

/-- The block type discriminator `block.blockType || block.type ||
block.blockName` (src/src/index.ts line 654, also line 647). -/
def blockDiscriminator (b : JsonValue) : Option JsonValue :=
  jsOr3 (getField b "blockType") (getField b "type") (getField b "blockName")

/-- Translation of the per-block sanitization (src/src/index.ts lines
652-677): record the discriminator, shallow-copy the block, delete the
top-level `id`, `_id` and all three discriminator keys, recursively
sanitize the rest, and rebuild the block with the canonical `blockType`
first.  When the discriminator is `undefined` the reconstructed
`blockType: undefined` property is dropped on JSON serialisation, so the
model omits the key. -/
def sanitizeBlock (block : JsonValue) : JsonValue :=
  let cleaned := (jsSpread block).eraseKeys ["id", "_id", "blockType", "type", "blockName"]
  let inner := sanitizeFields cleaned
  match blockDiscriminator block with
  | some t => .obj (.cons "blockType" t inner)
  | none => .obj inner

def mapBlocks : JsonList → JsonList
  | .nil => .nil
  | .cons h t => .cons (sanitizeBlock h) (mapBlocks t)

/-- Translation of the complex-field branch (src/src/index.ts lines
629-691).  The JSON.stringify/JSON.parse deep clone is the identity on
pure JSON values, so the model elides it; its `catch` fallbacks are
unreachable here.  A non-empty array whose first element is truthy and
carries a truthy discriminator is treated as a block list; every other
value goes through `sanitizeObject`. -/
def processComplex (v : JsonValue) : JsonValue :=
  match v with
  | .arr (.cons b bs) =>
      if truthy b && optTruthy (blockDiscriminator b) then .arr (mapBlocks (.cons b bs))
      else sanitizeObject v
  | _ => sanitizeObject v

/-- The field names given special handling by name (src/src/index.ts lines
622-625). -/
def specialFieldNames : List String := ["content", "callOut", "callToAction", "subTitle"]

/-- How one selected field's source value is copied into the variant
(src/src/index.ts lines 620-695): the complex branch fires for the special
field names or any value of JS object type (including `null`); primitives
are assigned directly. -/
def copyField (f : String) (v : JsonValue) : JsonValue :=
  if specialFieldNames.contains f || isTypeofObject v then processComplex v else v

/-- Source value for a field: the incoming write's value if defined,
otherwise the previous snapshot's (src/src/index.ts lines 607-611). -/
def sourceOf (cur : Doc) (orig : Option Doc) (f : String) : Option JsonValue :=
  match cur.get? f with
  | some v => some v
  | none => orig.bind (fun o => o.get? f)

/-- The `fieldsToCopy.forEach` loop building the fresh variant object
(src/src/index.ts lines 603-697). -/
def buildVariantCore (fields : List String) (orig : Option Doc) (cur : Doc) : Doc :=
  fields.foldl
    (fun acc f =>
      match sourceOf cur orig f with
      | some v => acc.set f (copyField f v)
      | none => acc)
    .nil

/-- Preservation of one PostHog field from the incoming variant
(src/src/index.ts lines 699-706): copied only when present and truthy. -/
def preservePosthogKey (cur : Doc) (key : String) (nv : Doc) : Doc :=
  match (cur.get? "abVariant").bind (fun av => getField av key) with
  | some v => if truthy v then nv.set key v else nv
  | none => nv

/-- The complete fresh variant built on first-time enabling:
the copied selected fields, then `posthogVariantName` and
`posthogFeatureFlagKey` preserved from the incoming variant, in source
order. -/
def buildVariant (fields : List String) (orig : Option Doc) (cur : Doc) : Doc :=
  preservePosthogKey cur "posthogFeatureFlagKey"
    (preservePosthogKey cur "posthogVariantName" (buildVariantCore fields orig cur))

/-- Initialisation step of the hook (src/src/index.ts lines 577-580):
`abVariant` is reset to an empty object unless it is a truthy value of JS
object type. -/
def initVariant (d : Doc) : Doc :=
  match d.get? "abVariant" with
  | some v => if truthy v && isTypeofObject v then d else d.set "abVariant" (.obj .nil)
  | none => d.set "abVariant" (.obj .nil)

/-- Prefix every character of the given set with a backslash, mirroring
`s.replace(/[chars]/g, '\\$&')`. -/
def escapeWith (special : List Char) (s : String) : String :=
  String.mk (s.toList.foldr (fun c acc => if special.contains c then '\\' :: c :: acc else c :: acc) [])

/-- Characters escaped in the host (src/src/index.ts line 748; the dot was
deliberately removed from the class).  `Char.ofNat 123` and `Char.ofNat
125` are the two brace characters. -/
def hostEscapeChars : List Char :=
  ['*', '+', '?', '^', '$', Char.ofNat 123, Char.ofNat 125, '(', ')', '|', '[', ']', '\\']

/-- Characters escaped in the slug path (src/src/index.ts line 749). -/
def pathEscapeChars : List Char := '.' :: hostEscapeChars

/-- Per-collection slug path (src/src/index.ts lines 735-745).  The
comparison `docSlug !== 'home'` is strict, so only the exact string
`"home"` maps to the empty path. -/
def slugPathFor (collectionSlug : String) (docSlug : JsonValue) : String :=
  if collectionSlug == "advertorials" then "/a/" ++ jsToString docSlug
  else if collectionSlug == "thankYouPages" then "/t/" ++ jsToString docSlug
  else if collectionSlug == "vsl" then "/v/" ++ jsToString docSlug
  else
    match docSlug with
    | .str "home" => ""
    | v => "/" ++ jsToString v

/-- The generated URL-filter regex (src/src/index.ts lines 752-753). -/
def urlFilterFor (host slugPath : String) : String :=
  "^https://" ++ escapeWith hostEscapeChars host ++ escapeWith pathEscapeChars slugPath
    ++ "(?:" ++ "\\\\?" ++ ".*)?$"

/-- Environment oracles for the hook's external calls.
`brandLookup` models `await req.payload.findByID(\x7bid: currentData.brand,
collection: 'brands'\x7d)` followed by `brandDoc?.host`: `.ok (some h)`
when a truthy host string is found, `.ok none` otherwise, `.error` when
the lookup throws.  `flagCall` models the round-trip of
`handlePostHogFeatureFlag` (src/src/index.ts lines 814-914), which
re-throws any failure and never mutates the document.
`handlePostHogExperiment` (lines 917-1032) also never mutates the
document and swallows its own errors, so it needs no oracle. -/
structure HookEnv where
  brandLookup : Except String (Option String)
  flagCall : Except String Unit

/-- Host resolution for the URL filter (src/src/index.ts lines 721-730):
the default `runway.ac` unless a truthy `brand` triggers a lookup whose
truthy host wins; a throwing lookup escapes to the hook's `catch`. -/
def resolveHost (env : HookEnv) (d : Doc) : Except String String :=
  if optTruthy (d.get? "brand") then
    match env.brandLookup with
    | .error e => .error e
    | .ok h => .ok (h.getD "runway.ac")
  else .ok "runway.ac"

/-- Slug resolution and the conditional write of `experimentUrlFilter`
(src/src/index.ts lines 732-759). -/
def docSlugOf (orig : Option Doc) (d : Doc) : Option JsonValue :=
  jsOr (d.get? "slug") (orig.bind (fun o => o.get? "slug"))

def applyUrlFilter (collectionSlug : String) (orig : Option Doc) (d : Doc) (host : String) :
    Doc :=
  if !(host == "") && optTruthy (docSlugOf orig d) then
    match docSlugOf orig d with
    | some sv =>
        d.set "experimentUrlFilter" (.str (urlFilterFor host (slugPathFor collectionSlug sv)))
    | none => d
  else d

/-- Translation of the automatic URL-filter logic (src/src/index.ts lines
718-761).  `.error` models an exception escaping to the hook's outer
`catch`. -/
def urlFilterStep (collectionSlug : String) (env : HookEnv) (orig : Option Doc) (d : Doc) :
    Except String Doc :=
  if optTruthy (d.get? "enableABTesting") && !(optTruthy (d.get? "experimentUrlFilter")) then
    match resolveHost env d with
    | .error e => .error e
    | .ok host => .ok (applyUrlFilter collectionSlug orig d host)
  else .ok d

/-- Translation of the automatic `experimentName` population
(src/src/index.ts lines 777-786). -/
def autoExperimentName (d : Doc) : Doc :=
  if optTruthy (d.get? "enableABTesting") && optTruthy (d.get? "posthogFeatureFlagKey")
      && !(optTruthy (d.get? "experimentName")) then
    match d.get? "posthogFeatureFlagKey" with
    | some v => d.set "experimentName" v
    | none => d
  else d

/-- JS strict comparison `v === true` on a possibly-undefined value. -/
def isLitTrue : Option JsonValue → Bool
  | some (.bool true) => true
  | _ => false

/-- The steps of the enabled branch after the variant reconciliation
(src/src/index.ts lines 718-790): URL-filter generation, the feature-flag
endpoint call, `experimentName` population and the experiment call.  An
`.error` from an oracle models an exception reaching the hook's outer
`catch`, which returns the document state reached at that point. -/
def hookTail (collectionSlug : String) (env : HookEnv) (orig : Option Doc) (d2 : Doc) : Doc :=
  match urlFilterStep collectionSlug env orig d2 with
  | .error _ => d2
  | .ok d3 =>
    match env.flagCall with
    | .error _ => d3
    | .ok _ => autoExperimentName d3

/-- The reconciliation of the enabled branch (src/src/index.ts lines
593-716): on a first-time enabling (`previous enabled` not strictly `true`)
the variant is rebuilt from scratch, otherwise it is left untouched. -/
def enabledReconcile (fields : List String) (orig : Option Doc) (d1 : Doc) : Doc :=
  if !(isLitTrue (orig.bind (fun o => o.get? "enableABTesting"))) then
    d1.set "abVariant" (.obj (buildVariant fields orig d1))
  else d1

/-- Translation of `copyToVariantHook` (src/src/index.ts lines 566-811),
with `initVariant currentData` playing the role of the in-place mutated
`currentData`.  The body runs inside a `try` whose `catch` returns the
partially updated `currentData`, so an oracle failure yields the document
state reached at the point of the exception and no exception ever escapes
the hook. -/
def copyToVariantHook (collectionSlug : String) (fieldsToCopy : List String)
    (env : HookEnv) (originalDoc : Option Doc) (currentData : Doc) : Doc :=
  if !(optTruthy ((initVariant currentData).get? "enableABTesting")) then
    (initVariant currentData).set "abVariant" (.obj .nil)
  else
    if isLitTrue ((initVariant currentData).get? "enableABTesting") then
      hookTail collectionSlug env originalDoc
        (enabledReconcile fieldsToCopy originalDoc (initVariant currentData))
    else
      if isLitTrue (originalDoc.bind (fun o => o.get? "enableABTesting"))
          && !(isLitTrue ((initVariant currentData).get? "enableABTesting")) then
        (initVariant currentData).set "abVariant" (.obj .nil)
      else initVariant currentData

theorem initVariant_frame (d : Doc) (k : String) (hk : k ≠ "abVariant") :
    (initVariant d).get? k = d.get? k := by
  unfold initVariant
  (repeat' split) <;> first | rfl | exact get?_set_ne d "abVariant" (.obj .nil) k hk

theorem applyUrlFilter_frame (slug : String) (orig : Option Doc) (d : Doc) (host : String)
    (k : String) (hk : k ≠ "experimentUrlFilter") :
    (applyUrlFilter slug orig d host).get? k = d.get? k := by
  unfold applyUrlFilter
  (repeat' split) <;> first | rfl | exact get?_set_ne d "experimentUrlFilter" _ k hk

theorem urlFilterStep_frame (slug : String) (env : HookEnv) (orig : Option Doc)
    (d d' : Doc) (k : String) (h : urlFilterStep slug env orig d = .ok d')
    (hk : k ≠ "experimentUrlFilter") : d'.get? k = d.get? k := by
  unfold urlFilterStep at h
  split at h
  · cases hr : resolveHost env d with
    | error e => rw [hr] at h; exact absurd h (by simp)
    | ok host =>
        rw [hr] at h
        simp only [Except.ok.injEq] at h
        subst h
        exact applyUrlFilter_frame slug orig d host k hk
  · simp only [Except.ok.injEq] at h
    subst h
    rfl

theorem autoExperimentName_frame (d : Doc) (k : String) (hk : k ≠ "experimentName") :
    (autoExperimentName d).get? k = d.get? k := by
  unfold autoExperimentName
  split
  · split
    · exact get?_set_ne d "experimentName" _ k hk
    · rfl
  · rfl

theorem hookTail_frame (slug : String) (env : HookEnv) (orig : Option Doc) (d2 : Doc)
    (k : String) (hk1 : k ≠ "experimentUrlFilter") (hk2 : k ≠ "experimentName") :
    (hookTail slug env orig d2).get? k = d2.get? k := by
  unfold hookTail
  cases hu : urlFilterStep slug env orig d2 with
  | error e => rfl
  | ok d3 =>
      have h3 := urlFilterStep_frame slug env orig d2 d3 k hu hk1
      cases env.flagCall with
      | error e => exact h3
      | ok u => rw [autoExperimentName_frame d3 k hk2]; exact h3

/-- One iteration of the `fieldsToCopy.forEach` loop. -/
def copyStep (cur : Doc) (orig : Option Doc) (acc : Doc) (f : String) : Doc :=
  match sourceOf cur orig f with
  | some v => acc.set f (copyField f v)
  | none => acc

theorem buildVariantCore_eq_foldl (fields : List String) (orig : Option Doc) (cur : Doc) :
    buildVariantCore fields orig cur = fields.foldl (copyStep cur orig) .nil := rfl

theorem foldl_copyStep_get (cur : Doc) (orig : Option Doc) :
    ∀ (fields : List String) (acc : Doc) (f : String),
      (fields.foldl (copyStep cur orig) acc).get? f =
        if f ∈ fields ∧ (sourceOf cur orig f).isSome = true
        then (sourceOf cur orig f).map (copyField f)
        else acc.get? f := by
  intro fields
  induction fields with
  | nil => intro acc f; simp
  | cons g rest ih =>
      intro acc f
      simp only [List.foldl_cons]
      rw [ih]
      by_cases hf : f ∈ rest ∧ (sourceOf cur orig f).isSome = true
      · rw [if_pos hf, if_pos ⟨List.mem_cons_of_mem g hf.1, hf.2⟩]
      · rw [if_neg hf]
        by_cases hg : f = g
        · subst hg
          cases hs : sourceOf cur orig f with
          | some v =>
              rw [if_pos ⟨List.mem_cons_self f rest, rfl⟩]
              unfold copyStep
              simp only [hs, get?_set_self, Option.map_some']
          | none =>
              rw [if_neg (by rintro ⟨-, h2⟩; simp at h2)]
              unfold copyStep
              simp only [hs]
        · have hcond : ¬(f ∈ g :: rest ∧ (sourceOf cur orig f).isSome = true) := by
            rintro ⟨hm, hsome⟩
            rcases List.mem_cons.mp hm with h | hm2
            · exact hg h
            · exact hf ⟨hm2, hsome⟩
          rw [if_neg hcond]
          unfold copyStep
          cases sourceOf cur orig g with
          | some v => exact get?_set_ne acc g _ f hg
          | none => rfl

theorem foldl_copyStep_hasKey (cur : Doc) (orig : Option Doc) :
    ∀ (fields : List String) (acc : Doc) (f : String),
      (fields.foldl (copyStep cur orig) acc).hasKey f = true →
      acc.hasKey f = true ∨ f ∈ fields := by
  intro fields
  induction fields with
  | nil => intro acc f h; exact Or.inl h
  | cons g rest ih =>
      intro acc f h
      simp only [List.foldl_cons] at h
      rcases ih (copyStep cur orig acc g) f h with h1 | h1
      · unfold copyStep at h1
        cases hs : sourceOf cur orig g with
        | some v =>
            rw [hs] at h1
            rcases (hasKey_set acc g (copyField g v) f).mp h1 with h2 | h2
            · exact Or.inl h2
            · exact Or.inr (by simp [h2])
        | none => rw [hs] at h1; exact Or.inl h1
      · exact Or.inr (List.mem_cons_of_mem g h1)

theorem preservePosthogKey_get_ne (cur : Doc) (key : String) (nv : Doc) (k : String)
    (hk : k ≠ key) : (preservePosthogKey cur key nv).get? k = nv.get? k := by
  unfold preservePosthogKey
  (repeat' split) <;> first | rfl | exact get?_set_ne nv key _ k hk

theorem preservePosthogKey_get_self (cur : Doc) (key : String) (nv : Doc) (v : JsonValue)
    (h : (cur.get? "abVariant").bind (fun av => getField av key) = some v)
    (ht : truthy v = true) : (preservePosthogKey cur key nv).get? key = some v := by
  unfold preservePosthogKey
  simp only [h, ht, if_true]
  exact get?_set_self nv key v

theorem preservePosthogKey_hasKey (cur : Doc) (key : String) (nv : Doc) (f : String)
    (h : (preservePosthogKey cur key nv).hasKey f = true) :
    nv.hasKey f = true ∨ f = key := by
  unfold preservePosthogKey at h
  split at h
  · split at h
    · exact (hasKey_set nv key _ f).mp h
    · exact Or.inl h
  · exact Or.inl h

theorem enabledReconcile_frame (fields : List String) (orig : Option Doc) (d1 : Doc)
    (k : String) (hk : k ≠ "abVariant") :
    (enabledReconcile fields orig d1).get? k = d1.get? k := by
  unfold enabledReconcile
  split
  · exact get?_set_ne d1 "abVariant" _ k hk
  · rfl

theorem initVariant_of_object (d : Doc) (fs : JsonFields)
    (h : d.get? "abVariant" = some (.obj fs)) : initVariant d = d := by
  unfold initVariant
  rw [h]
  rfl

theorem sourceOf_init (cur : Doc) (orig : Option Doc) (f : String) (hf : f ≠ "abVariant") :
    sourceOf (initVariant cur) orig f = sourceOf cur orig f := by
  unfold sourceOf
  rw [initVariant_frame cur f hf]

/-- C2: for every value (primitive, array, or arbitrarily nested object),
the result of `sanitizeObject` contains none of the identity/audit keys
(`id`, `_id`, `__v`, `createdAt`, `updatedAt`) at any nesting depth,
sanitization is idempotent, and non-object values pass through unchanged. -/
theorem c2_sanitize_clean_and_idempotent (v : JsonValue) :
    noSystemKeys (sanitizeObject v) = true ∧
    sanitizeObject (sanitizeObject v) = sanitizeObject v ∧
    (isObjectLike v = false → sanitizeObject v = v) :=
  ⟨noSystemKeys_sanitize v, sanitize_idem v, fun h => sanitize_of_not_objectLike v h⟩

/-- Witness for C2 at a concrete nested value and a concrete primitive. -/
theorem c2_sanitize_clean_and_idempotent_witness :
    noSystemKeys (sanitizeObject (.obj (.cons "_id" (.str "m")
      (.cons "a" (.arr (.cons (.obj (.cons "id" (.str "i")
        (.cons "b" (.num 2) .nil))) .nil)) .nil)))) = true ∧
    sanitizeObject (.str "x") = .str "x" :=
  ⟨(c2_sanitize_clean_and_idempotent (.obj (.cons "_id" (.str "m")
      (.cons "a" (.arr (.cons (.obj (.cons "id" (.str "i")
        (.cons "b" (.num 2) .nil))) .nil)) .nil)))).1,
   (c2_sanitize_clean_and_idempotent (.str "x")).2.2 rfl⟩

/-- C4: whenever the incoming `enableABTesting` value is falsy (in
particular `false` or absent), the hook forces `abVariant` to the empty
object; this covers both the enabled → disabled and the
disabled → disabled transition, for every previous snapshot. -/
theorem c4_disabled_write_clears_variant (slug : String) (fields : List String)
    (env : HookEnv) (orig : Option Doc) (cur : Doc)
    (h : optTruthy (cur.get? "enableABTesting") = false) :
    (copyToVariantHook slug fields env orig cur).get? "abVariant" = some (.obj .nil) := by
  unfold copyToVariantHook
  rw [initVariant_frame cur "enableABTesting" (by decide), h]
  simp only [Bool.not_false, eq_self_iff_true, if_true]
  exact get?_set_self (initVariant cur) "abVariant" (.obj .nil)

/-- Witness for C4: a `true -> false` write and a `false -> false` write,
both with a previously non-empty variant in the incoming data. -/
theorem c4_disabled_write_clears_variant_witness :
    (copyToVariantHook "posts" ["title"] ⟨.ok none, .ok ()⟩
      (some (.cons "enableABTesting" (.bool true) .nil))
      (.cons "enableABTesting" (.bool false)
        (.cons "abVariant" (.obj (.cons "title" (.str "v") .nil)) .nil))).get? "abVariant" =
      some (.obj .nil) ∧
    (copyToVariantHook "posts" ["title"] ⟨.ok none, .ok ()⟩
      (some (.cons "enableABTesting" (.bool false) .nil))
      (.cons "enableABTesting" (.bool false)
        (.cons "abVariant" (.obj (.cons "title" (.str "v") .nil)) .nil))).get? "abVariant" =
      some (.obj .nil) :=
  ⟨c4_disabled_write_clears_variant "posts" ["title"] ⟨.ok none, .ok ()⟩
      (some (.cons "enableABTesting" (.bool true) .nil))
      (.cons "enableABTesting" (.bool false)
        (.cons "abVariant" (.obj (.cons "title" (.str "v") .nil)) .nil)) rfl,
   c4_disabled_write_clears_variant "posts" ["title"] ⟨.ok none, .ok ()⟩
      (some (.cons "enableABTesting" (.bool false) .nil))
      (.cons "enableABTesting" (.bool false)
        (.cons "abVariant" (.obj (.cons "title" (.str "v") .nil)) .nil)) rfl⟩

/-- C3: when both the previous snapshot and the incoming write have
`enableABTesting == true`, the hook leaves `abVariant` exactly as the
caller submitted it (no re-copy from the base fields), so direct edits to
variant fields survive the save, for every oracle behaviour. -/
theorem c3_steady_state_preserves_variant (slug : String) (fields : List String)
    (env : HookEnv) (orig : Doc) (cur : Doc) (avs : JsonFields)
    (ho : orig.get? "enableABTesting" = some (.bool true))
    (hc : cur.get? "enableABTesting" = some (.bool true))
    (hv : cur.get? "abVariant" = some (.obj avs)) :
    (copyToVariantHook slug fields env (some orig) cur).get? "abVariant" =
      some (.obj avs) := by
  have hinit : initVariant cur = cur := initVariant_of_object cur avs hv
  unfold copyToVariantHook
  rw [hinit, hc]
  simp only [optTruthy, truthy, Bool.not_true, Bool.false_eq_true, if_false, isLitTrue,
    eq_self_iff_true, if_true]
  rw [hookTail_frame slug env (some orig) _ "abVariant" (by decide) (by decide)]
  unfold enabledReconcile
  simp only [Option.some_bind, ho, isLitTrue, Bool.not_true, Bool.false_eq_true, if_false]
  exact hv

/-- Witness for C3: re-saving with `enabled` still `true` and an
externally edited `variant.title` keeps the edit. -/
theorem c3_steady_state_preserves_variant_witness :
    (copyToVariantHook "posts" ["title"] ⟨.ok none, .ok ()⟩
      (some (.cons "enableABTesting" (.bool true) (.cons "title" (.str "base") .nil)))
      (.cons "enableABTesting" (.bool true)
        (.cons "title" (.str "base")
          (.cons "abVariant" (.obj (.cons "title" (.str "edited") .nil)) .nil)))).get?
        "abVariant" =
      some (.obj (.cons "title" (.str "edited") .nil)) :=
  c3_steady_state_preserves_variant "posts" ["title"] ⟨.ok none, .ok ()⟩
    (.cons "enableABTesting" (.bool true) (.cons "title" (.str "base") .nil))
    (.cons "enableABTesting" (.bool true)
      (.cons "title" (.str "base")
        (.cons "abVariant" (.obj (.cons "title" (.str "edited") .nil)) .nil)))
    (.cons "title" (.str "edited") .nil) rfl rfl rfl

/-- C8: the hook is a total function of the incoming write — its `catch`
turns every oracle exception (brand lookup or feature-flag call) into a
normal return — and the returned document agrees with the incoming write
on every key except the three the hook owns (`abVariant`,
`experimentUrlFilter`, `experimentName`); under an exception the save thus
proceeds with the best-effort document instead of aborting. -/
theorem c8_hook_never_throws_frame (slug : String) (fields : List String)
    (env : HookEnv) (orig : Option Doc) (cur : Doc) (k : String)
    (h1 : k ≠ "abVariant") (h2 : k ≠ "experimentUrlFilter") (h3 : k ≠ "experimentName") :
    (copyToVariantHook slug fields env orig cur).get? k = cur.get? k := by
  unfold copyToVariantHook
  have hi := initVariant_frame cur k h1
  split
  · rw [get?_set_ne _ "abVariant" _ k h1]; exact hi
  · split
    · rw [hookTail_frame slug env orig _ k h2 h3, enabledReconcile_frame fields orig _ k h1]
      exact hi
    · split
      · rw [get?_set_ne _ "abVariant" _ k h1]; exact hi
      · exact hi

/-- Witness for C8: an enabled write whose flag call throws still returns
the document with its `title` untouched. -/
theorem c8_hook_never_throws_frame_witness :
    (copyToVariantHook "posts" ["title"] ⟨.ok none, .error "posthog down"⟩
      (some (.cons "enableABTesting" (.bool false) .nil))
      (.cons "enableABTesting" (.bool true) (.cons "title" (.str "T") .nil))).get? "title" =
      some (.str "T") := by
  have h := c8_hook_never_throws_frame "posts" ["title"] ⟨.ok none, .error "posthog down"⟩
    (some (.cons "enableABTesting" (.bool false) .nil))
    (.cons "enableABTesting" (.bool true) (.cons "title" (.str "T") .nil))
    "title" (by decide) (by decide) (by decide)
  rw [h]; rfl

def c1Env : HookEnv := ⟨.ok none, .ok ()⟩

def c1Orig : Doc := .cons "enableABTesting" (.bool false) .nil

/-- The claim's example input: selection `title`/`content`, a block-valued
`content`, plus `id` and `createdAt` system fields. -/
def c1Cur : Doc :=
  .cons "enableABTesting" (.bool true)
    (.cons "title" (.str "T")
      (.cons "content"
        (.arr (.cons (.obj (.cons "blockType" (.str "hero")
          (.cons "id" (.str "b1") (.cons "text" (.str "hello") .nil)))) .nil))
        (.cons "id" (.str "x") (.cons "createdAt" (.str "d") .nil))))

/-- The exact variant the example must produce: `title` and the sanitized
block list, nothing else. -/
def c1Variant : JsonFields :=
  .cons "title" (.str "T")
    (.cons "content"
      (.arr (.cons (.obj (.cons "blockType" (.str "hero")
        (.cons "text" (.str "hello") .nil))) .nil)) .nil)

/-- C1: on a first-time enabling write (previous `enabled == false`,
incoming `enabled == true`) the hook rebuilds the variant from scratch:
there is a fresh variant object whose value at every selected field is the
copy (through `copyField`, i.e. the sanitizer with the block-aware branch)
of the incoming write's value if defined, else the previous snapshot's;
its keys are contained in the selection plus the two preserved PostHog
keys; and on the claim's concrete example the variant is exactly
`title`/`content` with no `id`/`createdAt` at any depth. -/
theorem c1_first_enable_rebuilds_variant :
    (∀ (slug : String) (fields : List String) (env : HookEnv) (orig : Doc) (cur : Doc),
      orig.get? "enableABTesting" = some (.bool false) →
      cur.get? "enableABTesting" = some (.bool true) →
      ∃ nv : JsonFields,
        (copyToVariantHook slug fields env (some orig) cur).get? "abVariant" =
            some (.obj nv) ∧
        (∀ f ∈ fields, f ≠ "posthogVariantName" → f ≠ "posthogFeatureFlagKey" →
          f ≠ "abVariant" →
          nv.get? f = (sourceOf cur (some orig) f).map (copyField f)) ∧
        (∀ f, nv.hasKey f = true →
          f ∈ fields ∨ f = "posthogVariantName" ∨ f = "posthogFeatureFlagKey")) ∧
    (copyToVariantHook "posts" ["title", "content"] c1Env (some c1Orig) c1Cur).get?
        "abVariant" = some (.obj c1Variant) := by
  constructor
  · intro slug fields env orig cur ho hc
    refine ⟨buildVariant fields (some orig) (initVariant cur), ?_, ?_, ?_⟩
    · unfold copyToVariantHook
      rw [initVariant_frame cur "enableABTesting" (by decide), hc]
      simp only [optTruthy, truthy, Bool.not_true, Bool.false_eq_true, if_false, isLitTrue,
        eq_self_iff_true, if_true]
      rw [hookTail_frame slug env (some orig) _ "abVariant" (by decide) (by decide)]
      unfold enabledReconcile
      simp only [Option.some_bind, ho]
      have e1 : isLitTrue (some (JsonValue.bool false)) = false := rfl
      rw [e1]
      simp only [Bool.not_false, eq_self_iff_true, if_true]
      exact get?_set_self (initVariant cur) "abVariant" _
    · intro f hf hn1 hn2 hn3
      unfold buildVariant
      rw [preservePosthogKey_get_ne _ _ _ f hn2, preservePosthogKey_get_ne _ _ _ f hn1]
      rw [buildVariantCore_eq_foldl, foldl_copyStep_get]
      rw [sourceOf_init cur (some orig) f hn3]
      by_cases hs : (sourceOf cur (some orig) f).isSome = true
      · rw [if_pos ⟨hf, hs⟩]
      · rw [if_neg (fun hcon => hs hcon.2)]
        cases hsv : sourceOf cur (some orig) f with
        | some v => rw [hsv] at hs; simp at hs
        | none => simp [JsonFields.get?]
    · intro f hk
      unfold buildVariant at hk
      rcases preservePosthogKey_hasKey _ _ _ f hk with hk1 | hfk
      · rcases preservePosthogKey_hasKey _ _ _ f hk1 with hk2 | hvn
        · rw [buildVariantCore_eq_foldl] at hk2
          rcases foldl_copyStep_hasKey _ _ fields .nil f hk2 with h0 | hmem
          · simp [JsonFields.hasKey] at h0
          · exact Or.inl hmem
        · exact Or.inr (Or.inl hvn)
      · exact Or.inr (Or.inr hfk)
  · rfl

/-- Witness for C1: its universal part applied to the claim's example. -/
theorem c1_first_enable_rebuilds_variant_witness :
    ∃ nv : JsonFields,
      (copyToVariantHook "posts" ["title", "content"] c1Env (some c1Orig) c1Cur).get?
          "abVariant" = some (.obj nv) ∧
      (∀ f ∈ ["title", "content"], f ≠ "posthogVariantName" →
        f ≠ "posthogFeatureFlagKey" → f ≠ "abVariant" →
        nv.get? f = (sourceOf c1Cur (some c1Orig) f).map (copyField f)) ∧
      (∀ f, nv.hasKey f = true →
        f ∈ ["title", "content"] ∨ f = "posthogVariantName" ∨
          f = "posthogFeatureFlagKey") :=
  c1_first_enable_rebuilds_variant.1 "posts" ["title", "content"] c1Env c1Orig c1Cur rfl rfl

/-- C10: on a first-time enabling write, a truthy `posthogVariantName` or
`posthogFeatureFlagKey` carried by the incoming write's existing variant
object is copied into the freshly built variant, so the rebuilt variant
can contain these two keys in addition to the selected fields. -/
theorem c10_posthog_keys_preserved (slug : String) (fields : List String) (env : HookEnv)
    (orig : Option Doc) (cur : Doc) (avs : JsonFields)
    (ho : isLitTrue (orig.bind (fun o => o.get? "enableABTesting")) = false)
    (hc : cur.get? "enableABTesting" = some (.bool true))
    (hav : cur.get? "abVariant" = some (.obj avs)) :
    ∃ nv : JsonFields,
      (copyToVariantHook slug fields env orig cur).get? "abVariant" = some (.obj nv) ∧
      (∀ v, avs.get? "posthogVariantName" = some v → truthy v = true →
        nv.get? "posthogVariantName" = some v) ∧
      (∀ w, avs.get? "posthogFeatureFlagKey" = some w → truthy w = true →
        nv.get? "posthogFeatureFlagKey" = some w) := by
  have hinit : initVariant cur = cur := initVariant_of_object cur avs hav
  refine ⟨buildVariant fields orig (initVariant cur), ?_, ?_, ?_⟩
  · unfold copyToVariantHook
    rw [hinit, hc]
    simp only [optTruthy, truthy, Bool.not_true, Bool.false_eq_true, if_false, isLitTrue,
      eq_self_iff_true, if_true]
    rw [hookTail_frame slug env orig _ "abVariant" (by decide) (by decide)]
    unfold enabledReconcile
    rw [ho]
    simp only [Bool.not_false, eq_self_iff_true, if_true]
    exact get?_set_self cur "abVariant" _
  · intro v hv ht
    unfold buildVariant
    rw [preservePosthogKey_get_ne _ _ _ "posthogVariantName" (by decide)]
    exact preservePosthogKey_get_self (initVariant cur) "posthogVariantName" _ v
      (by rw [hinit, hav]; simpa [getField] using hv) ht
  · intro w hw ht
    unfold buildVariant
    exact preservePosthogKey_get_self (initVariant cur) "posthogFeatureFlagKey" _ w
      (by rw [hinit, hav]; simpa [getField] using hw) ht

/-- Witness for C10: enabling with selection `title` only, while the
incoming variant carries both PostHog keys; both survive into the rebuilt
variant even though neither is in the selection. -/
theorem c10_posthog_keys_preserved_witness :
    ∃ nv : JsonFields,
      (copyToVariantHook "posts" ["title"] ⟨.ok none, .ok ()⟩
        (some (.cons "enableABTesting" (.bool false) .nil))
        (.cons "enableABTesting" (.bool true)
          (.cons "title" (.str "T")
            (.cons "abVariant" (.obj (.cons "posthogVariantName" (.str "varB")
              (.cons "posthogFeatureFlagKey" (.str "ff1") .nil))) .nil)))).get? "abVariant" =
          some (.obj nv) ∧
      (∀ v, (JsonFields.cons "posthogVariantName" (JsonValue.str "varB")
          (.cons "posthogFeatureFlagKey" (.str "ff1") .nil)).get? "posthogVariantName" =
            some v →
        truthy v = true → nv.get? "posthogVariantName" = some v) ∧
      (∀ w, (JsonFields.cons "posthogVariantName" (JsonValue.str "varB")
          (.cons "posthogFeatureFlagKey" (.str "ff1") .nil)).get? "posthogFeatureFlagKey" =
            some w →
        truthy w = true → nv.get? "posthogFeatureFlagKey" = some w) :=
  c10_posthog_keys_preserved "posts" ["title"] ⟨.ok none, .ok ()⟩
    (some (.cons "enableABTesting" (.bool false) .nil))
    (.cons "enableABTesting" (.bool true)
      (.cons "title" (.str "T")
        (.cons "abVariant" (.obj (.cons "posthogVariantName" (.str "varB")
          (.cons "posthogFeatureFlagKey" (.str "ff1") .nil))) .nil)))
    (.cons "posthogVariantName" (.str "varB")
      (.cons "posthogFeatureFlagKey" (.str "ff1") .nil)) rfl rfl rfl

def JsonFields.append : JsonFields → JsonFields → JsonFields
  | .nil, e => e
  | .cons k v t, e => .cons k v (t.append e)

/-- The object has pairwise distinct keys (always true of a JS object). -/
def keysNodup : JsonFields → Bool
  | .nil => true
  | .cons k _ t => !(t.hasKey k) && keysNodup t

theorem append_nil : ∀ fs : JsonFields, fs.append .nil = fs
  | .nil => rfl
  | .cons k v t => by rw [JsonFields.append, append_nil t]

theorem append_assoc : ∀ a b c : JsonFields, (a.append b).append c = a.append (b.append c)
  | .nil, b, c => rfl
  | .cons k v t, b, c => by
      simp only [JsonFields.append]
      rw [append_assoc t b c]

theorem hasKey_append : ∀ (a b : JsonFields) (k : String),
    (a.append b).hasKey k = (a.hasKey k || b.hasKey k)
  | .nil, b, k => rfl
  | .cons k' v t, b, k => by
      simp only [JsonFields.append, JsonFields.hasKey, hasKey_append t b k, Bool.or_assoc]

theorem get?_eq_none_of_hasKey_false : ∀ (fs : JsonFields) (k : String),
    fs.hasKey k = false → fs.get? k = none
  | .nil, k, _ => rfl
  | .cons k' v t, k, h => by
      simp only [JsonFields.hasKey, Bool.or_eq_false_iff] at h
      simp only [JsonFields.get?, h.1, Bool.false_eq_true, if_false]
      exact get?_eq_none_of_hasKey_false t k h.2

theorem set_eq_append_of_hasKey_false : ∀ (fs : JsonFields) (k : String) (v : JsonValue),
    fs.hasKey k = false → fs.set k v = fs.append (.cons k v .nil)
  | .nil, k, v, _ => rfl
  | .cons k' v' t, k, v, h => by
      simp only [JsonFields.hasKey, Bool.or_eq_false_iff] at h
      simp only [JsonFields.set, h.1, Bool.false_eq_true, if_false, JsonFields.append]
      rw [set_eq_append_of_hasKey_false t k v h.2]

mutual

/-- Core of lodash `merge` as used by the server resolver
(src/src/exports/server.ts line 136): a source object merges field-wise
into a destination object, a source array merges index-wise into a
destination array, any other source value overwrites the destination, and
merging into an absent destination yields the source (lodash clones it; in
these value semantics the clone is the value itself).  lodash's behaviour
on exotic mixed shapes (for example a string source) is not exercised by
the resolver, whose sources are the document and its variant object. -/
def mergeVals : Option JsonValue → JsonValue → JsonValue
  | some (.obj df), .obj sf => .obj (mergeFields df sf)
  | some (.arr da), .arr sa => .arr (mergeLists da sa)
  | _, src => src

def mergeFields : JsonFields → JsonFields → JsonFields
  | d, .nil => d
  | d, .cons k v t => mergeFields (d.set k (mergeVals (d.get? k) v)) t

def mergeLists : JsonList → JsonList → JsonList
  | da, .nil => da
  | .nil, .cons sh st => .cons (mergeVals none sh) (mergeLists .nil st)
  | .cons dh dt, .cons sh st => .cons (mergeVals (some dh) sh) (mergeLists dt st)

end

theorem mergeFields_acc : ∀ (d acc : JsonFields),
    (∀ k, d.hasKey k = true → acc.hasKey k = false) → keysNodup d = true →
    mergeFields acc d = acc.append d
  | .nil, acc, _, _ => (append_nil acc).symm
  | .cons k v t, acc, hdisj, hnd => by
      have hk : acc.hasKey k = false := hdisj k (by simp [JsonFields.hasKey])
      simp only [keysNodup, Bool.and_eq_true, Bool.not_eq_true'] at hnd
      have hge : acc.get? k = none := get?_eq_none_of_hasKey_false acc k hk
      simp only [mergeFields, hge]
      have hmv : mergeVals none v = v := by cases v <;> rfl
      rw [hmv, set_eq_append_of_hasKey_false acc k v hk]
      rw [mergeFields_acc t (acc.append (.cons k v .nil)) ?_ hnd.2]
      · rw [append_assoc]
        rfl
      · intro k' hk'
        rw [hasKey_append]
        have h1 : acc.hasKey k' = false := hdisj k' (by simp [JsonFields.hasKey, hk'])
        have h2 : (k == k') = false := by
          rcases Bool.eq_false_or_eq_true (k == k') with hkk | hkk
          · rcases (beq_iff_eq ..).mp hkk with rfl
            rw [hnd.1] at hk'
            cases hk'
          · exact hkk
        simp [h1, JsonFields.hasKey, h2]

theorem mergeFields_nil (d : JsonFields) (hnd : keysNodup d = true) :
    mergeFields .nil d = d := by
  rw [mergeFields_acc d .nil (fun k _ => rfl) hnd]
  rfl

theorem mergeFields_get_frame : ∀ (s d : JsonFields) (k : String),
    s.hasKey k = false → (mergeFields d s).get? k = d.get? k
  | .nil, d, k, _ => rfl
  | .cons k' v t, d, k, h => by
      simp only [JsonFields.hasKey, Bool.or_eq_false_iff] at h
      simp only [mergeFields]
      rw [mergeFields_get_frame t _ k h.2]
      exact get?_set_ne d k' _ k (fun he => by simp [he] at h)

def setAll : JsonFields → JsonFields → JsonFields
  | d, .nil => d
  | d, .cons k v t => setAll (d.set k v) t

theorem setAll_get_frame : ∀ (s d : JsonFields) (k : String),
    s.hasKey k = false → (setAll d s).get? k = d.get? k
  | .nil, d, k, _ => rfl
  | .cons k' v t, d, k, h => by
      simp only [JsonFields.hasKey, Bool.or_eq_false_iff] at h
      simp only [setAll]
      rw [setAll_get_frame t _ k h.2]
      exact get?_set_ne d k' v k (fun he => by simp [he] at h)

/-- JS spread-merge `\x7b ...document, ...variant \x7d`
(src/src/exports/client.ts lines 125-128): since a JS object's keys are
unique, spreading `document` into the fresh literal reproduces `document`;
the variant's properties are then assigned over it in order. -/
def spreadMerge (d : Doc) (av : JsonValue) : Doc := setAll d (jsSpread av)

/-- Oracles for the client resolver's PostHog calls:
`flagEval` models `posthog.isFeatureEnabled` (which may throw), and
`captureOk` tells whether `posthog.capture` succeeds — a throwing capture
lands in the `catch`, which falls through to returning the original
document. -/
structure ClientEnv where
  flagEval : Except Unit Bool
  captureOk : Bool

/-- Translation of `getABTestVariant` (src/src/exports/client.ts lines
83-142).  `posthogAvailable` is the presence check of the optional
`posthog` argument. -/
def getABTestVariant (doc : Doc) (posthogAvailable : Bool) (env : ClientEnv) : Doc :=
  if !(optTruthy (doc.get? "enableABTesting")) then doc
  else if !posthogAvailable then doc
  else
    match env.flagEval with
    | .error _ => doc
    | .ok showVariant =>
      if showVariant && optTruthy (doc.get? "abVariant") then
        if env.captureOk then
          match doc.get? "abVariant" with
          | some av => spreadMerge doc av
          | none => doc
        else doc
      else doc

/-- The possible defined results of `posthogClient.getFeatureFlag`. -/
inductive FlagResp where
  | asBool (b : Bool)
  | asNull
  | asStr (s : String)

/-- The response mapping of the server resolver (src/src/exports/server.ts
lines 125-134): `false`/`null`/`undefined` → `control`, `true` → `variant`,
a string is used verbatim. -/
def mapFlagResponse : Option FlagResp → String
  | some (.asBool false) => "control"
  | some .asNull => "control"
  | none => "control"
  | some (.asBool true) => "variant"
  | some (.asStr s) => s

/-- Oracles for the server resolver: `flagResponse` models
`posthogClient.getFeatureFlag` (`.error` = the call threw, `none` =
`undefined`), and `newUuid` the `crypto.randomUUID()` result.  The request
context and person properties only feed the external evaluation, so they
live behind the `flagResponse` oracle. -/
structure ServerEnv where
  flagResponse : Except Unit (Option FlagResp)
  newUuid : String

/-- The four reporting keys appended by the server resolver to its result
(src/src/exports/server.ts lines 151-157).  When no new distinct id was
generated the JS literal carries `posthogNewDistinctIdGenerated:
undefined`, which JSON serialisation drops, so the model omits the key. -/
def augmentServer (base : JsonFields) (arm : String) (ffk : JsonValue) (distinctId : String)
    (newGen : Option String) : JsonFields :=
  match newGen with
  | some u =>
      (((base.set "posthogAssignedVariantKey" (.str arm)).set
        "posthogFeatureFlagKeyUsed" ffk).set
          "posthogServerDistinctId" (.str distinctId)).set
            "posthogNewDistinctIdGenerated" (.str u)
  | none =>
      ((base.set "posthogAssignedVariantKey" (.str arm)).set
        "posthogFeatureFlagKeyUsed" ffk).set
          "posthogServerDistinctId" (.str distinctId)

/-- The flag key used by both resolvers: `document.posthogFeatureFlagKey ||
"ab_test_" + String(document.id)`. -/
def resolverFlagKey (doc : Doc) : JsonValue :=
  (jsOr (doc.get? "posthogFeatureFlagKey")
    (some (.str ("ab_test_" ++ optToString (doc.get? "id"))))).getD .null

/-- Translation of `getServerSideABVariant` (src/src/exports/server.ts
lines 53-158).  `merge(\x7b\x7d, document, document.abVariant)` is folded
left: the empty target merged with the document, then with the variant.
On a thrown evaluation the `catch` serves `control` over the unmerged
document. -/
def getServerSideABVariant (doc : Doc) (cookieId : Option String) (env : ServerEnv) : Doc :=
  if !(optTruthy (doc.get? "enableABTesting")) || !(optTruthy (doc.get? "abVariant")) then doc
  else
    match env.flagResponse with
    | .error _ =>
        augmentServer doc "control" (resolverFlagKey doc) (cookieId.getD env.newUuid)
          (if cookieId.isSome then none else some env.newUuid)
    | .ok resp =>
        augmentServer
          (if mapFlagResponse resp == "variant" then
            match doc.get? "abVariant" with
            | some av =>
                jsSpread (mergeVals (some (mergeVals (some (.obj .nil)) (.obj doc))) av)
            | none => doc
           else doc)
          (mapFlagResponse resp) (resolverFlagKey doc) (cookieId.getD env.newUuid)
          (if cookieId.isSome then none else some env.newUuid)

theorem augmentServer_get_frame (base : JsonFields) (arm : String) (ffk : JsonValue)
    (distinctId : String) (newGen : Option String) (k : String)
    (h1 : k ≠ "posthogAssignedVariantKey") (h2 : k ≠ "posthogFeatureFlagKeyUsed")
    (h3 : k ≠ "posthogServerDistinctId") (h4 : k ≠ "posthogNewDistinctIdGenerated") :
    (augmentServer base arm ffk distinctId newGen).get? k = base.get? k := by
  unfold augmentServer
  cases newGen with
  | some u =>
      rw [get?_set_ne _ _ _ k h4, get?_set_ne _ _ _ k h3, get?_set_ne _ _ _ k h2,
        get?_set_ne _ _ _ k h1]
  | none =>
      rw [get?_set_ne _ _ _ k h3, get?_set_ne _ _ _ k h2, get?_set_ne _ _ _ k h1]

/-- The claim's example base document: content keys `a` and `b` plus a
variant overriding only `b`. -/
def c6Base : Doc :=
  .cons "enableABTesting" (.bool true)
    (.cons "a" (.num 1)
      (.cons "b" (.num 2)
        (.cons "abVariant" (.obj (.cons "b" (.num 9) .nil)) .nil)))

/-- C6: in both resolvers, when the variant arm is served the merge
overrides only keys present in the variant: every key of the base document
absent from the variant keeps its base value (for the server resolver, away
from its four appended reporting keys), and on base `a=1, b=2` with variant
`b=9` both resolvers serve `a=1, b=9`. -/
theorem c6_merge_preserves_base_keys :
    (∀ (doc : Doc) (av : JsonFields) (env : ClientEnv) (k : String),
      optTruthy (doc.get? "enableABTesting") = true →
      env.flagEval = .ok true →
      doc.get? "abVariant" = some (.obj av) →
      env.captureOk = true →
      av.hasKey k = false →
      (getABTestVariant doc true env).get? k = doc.get? k) ∧
    (∀ (doc : Doc) (av : JsonFields) (cookieId : Option String) (env : ServerEnv) (k : String),
      optTruthy (doc.get? "enableABTesting") = true →
      doc.get? "abVariant" = some (.obj av) →
      env.flagResponse = .ok (some (.asBool true)) →
      keysNodup doc = true →
      av.hasKey k = false →
      k ≠ "posthogAssignedVariantKey" → k ≠ "posthogFeatureFlagKeyUsed" →
      k ≠ "posthogServerDistinctId" → k ≠ "posthogNewDistinctIdGenerated" →
      (getServerSideABVariant doc cookieId env).get? k = doc.get? k) ∧
    ((getABTestVariant c6Base true ⟨.ok true, true⟩).get? "a" = some (.num 1) ∧
      (getABTestVariant c6Base true ⟨.ok true, true⟩).get? "b" = some (.num 9)) ∧
    ((getServerSideABVariant c6Base none ⟨.ok (some (.asBool true)), "u1"⟩).get? "a" =
        some (.num 1) ∧
      (getServerSideABVariant c6Base none ⟨.ok (some (.asBool true)), "u1"⟩).get? "b" =
        some (.num 9)) := by
  refine ⟨?_, ?_, ⟨rfl, rfl⟩, ⟨rfl, rfl⟩⟩
  · intro doc av env k he hf hv hc hk
    unfold getABTestVariant
    rw [he, hf, hv, hc]
    simp only [Bool.not_true, Bool.false_eq_true, if_false, optTruthy, truthy,
      Bool.true_and, eq_self_iff_true, if_true]
    exact setAll_get_frame av doc k hk
  · intro doc av cookieId env k he hv hr hnd hk h1 h2 h3 h4
    unfold getServerSideABVariant
    rw [he, hv, hr]
    simp only [optTruthy, truthy, Bool.not_true, Bool.or_self, Bool.false_eq_true, if_false]
    rw [show (mapFlagResponse (some (FlagResp.asBool true)) == "variant") = true from rfl]
    simp only [if_true]
    rw [show mergeVals (some (mergeVals (some (.obj .nil)) (.obj doc))) (.obj av) =
      mergeVals (some (.obj (mergeFields .nil doc))) (.obj av) from rfl]
    rw [mergeFields_nil doc hnd]
    rw [show mergeVals (some (.obj doc)) (.obj av) = .obj (mergeFields doc av) from rfl]
    rw [augmentServer_get_frame _ _ _ _ _ k h1 h2 h3 h4]
    exact mergeFields_get_frame av doc k hk

/-- Witness for C6: both universal parts applied to the example base and
variant, at the base-only key `a`. -/
theorem c6_merge_preserves_base_keys_witness :
    (getABTestVariant c6Base true ⟨.ok true, true⟩).get? "a" = c6Base.get? "a" ∧
    (getServerSideABVariant c6Base none ⟨.ok (some (.asBool true)), "u1"⟩).get? "a" =
      c6Base.get? "a" :=
  ⟨c6_merge_preserves_base_keys.1 c6Base (.cons "b" (.num 9) .nil) ⟨.ok true, true⟩ "a"
      rfl rfl rfl rfl rfl,
   c6_merge_preserves_base_keys.2.1 c6Base (.cons "b" (.num 9) .nil) none
      ⟨.ok (some (.asBool true)), "u1"⟩ "a" rfl rfl rfl rfl rfl
      (by decide) (by decide) (by decide) (by decide)⟩

/-- A configured variant of the Express middleware, as used by
`assignVariant`: a code and an optional numeric weight (the type itself is
declared outside the sources, so the shape is taken from its uses). -/
structure ABTestVariantCfg where
  code : String
  weight : Option ℚ

/-- The middleware options as used by `assignVariant`: an optional variant
list and an optional default variant code. -/
structure AbTestingPluginCfg where
  variants : Option (List ABTestVariantCfg)
  defaultVariant : Option String

/-- The cumulative-weight walk (src/src/middleware/abTestingMiddleware.ts
lines 70-75): subtract each weight from the running draw and return the
first variant that brings it to or below zero. -/
def weightedPick : List ABTestVariantCfg → ℚ → Option String
  | [], _ => none
  | v :: rest, r =>
      if r - v.weight.getD 0 ≤ 0 then some v.code
      else weightedPick rest (r - v.weight.getD 0)

/-- Translation of `assignVariant`
(src/src/middleware/abTestingMiddleware.ts lines 52-84).  The function
depends only on the plugin options and on one `Math.random()` draw
(passed explicitly as `rand`; JS guarantees a draw in `[0, 1)`); it
receives no visitor or flag identifier.  With no or empty variants it
returns the configured default; if any variant carries a numeric weight it
does the weighted pick, falling back to the default; otherwise it indexes
the list at `Math.floor(rand * length)`.  The out-of-range element access
JS would crash on cannot occur for a draw in `[0, 1)`; the model totalises
it with a junk element. -/
def assignVariant : AbTestingPluginCfg → ℚ → String
  | ⟨none, dflt⟩, _ => dflt.getD "default"
  | ⟨some [], dflt⟩, _ => dflt.getD "default"
  | ⟨some (v :: vs), dflt⟩, rand =>
      if (v :: vs).any (fun w => w.weight.isSome) then
        match weightedPick (v :: vs)
            (rand * ((v :: vs).foldl (fun sum w => sum + w.weight.getD 0) 0)) with
        | some code => code
        | none => dflt.getD "default"
      else
        ((v :: vs).getD (Int.toNat ⌊rand * ((v :: vs).length : ℚ)⌋) ⟨"", none⟩).code

/-- C7 counterexample: the middleware's fallback assignment takes no
`distinctId` or `flagKey` at all — it is a function of the options and the
`Math.random()` draw — and two invocations with identical options (hence
identical would-be string inputs) but different draws return different
arms, so no hash-based deterministic assignment is performed. -/
theorem c7_fallback_not_deterministic_counterexample :
    assignVariant ⟨some [⟨"A", none⟩, ⟨"B", none⟩], none⟩ 0 = "A" ∧
    assignVariant ⟨some [⟨"A", none⟩, ⟨"B", none⟩], none⟩ (1 / 2) = "B" ∧
    assignVariant ⟨some [⟨"A", none⟩, ⟨"B", none⟩], none⟩ 0 ≠
      assignVariant ⟨some [⟨"A", none⟩, ⟨"B", none⟩], none⟩ (1 / 2) := by
  refine ⟨?_, ?_, ?_⟩
  · unfold assignVariant
    norm_num [List.getD]
  · unfold assignVariant
    norm_num [List.getD]
  · unfold assignVariant
    norm_num [List.getD]
    decide

/-- C7 amended: the fallback assignment is a pure function of the plugin
options and one random draw only, independent of any visitor or flag
identifier: with no (or an empty) variant list it deterministically
returns `defaultVariant` (or `"default"`) whatever the draw, and with a
non-empty unweighted variant list and a draw in `[0, 1)` it returns the
code of the variant at index `⌊rand * n⌋`, always one of the configured
codes. -/
theorem c7_fallback_function_of_options_and_draw :
    (∀ (dflt : Option String) (r : ℚ),
      assignVariant ⟨none, dflt⟩ r = dflt.getD "default" ∧
      assignVariant ⟨some [], dflt⟩ r = dflt.getD "default") ∧
    (∀ (vs : List ABTestVariantCfg) (dflt : Option String) (r : ℚ),
      vs ≠ [] → (∀ v ∈ vs, v.weight = none) → 0 ≤ r → r < 1 →
      assignVariant ⟨some vs, dflt⟩ r ∈ vs.map (fun v => v.code)) := by
  constructor
  · intro dflt r
    exact ⟨rfl, rfl⟩
  · intro vs dflt r hne hw h0 h1
    cases vs with
    | nil => exact absurd rfl hne
    | cons v rest =>
        have hany : ((v :: rest).any fun w => w.weight.isSome) = false := by
          rw [List.any_eq_false]
          intro w hwmem
          rw [hw w hwmem]
          simp
        simp only [assignVariant, hany, Bool.false_eq_true, if_false]
        have hnpos : 0 < (((v :: rest).length : ℚ)) := by
          have : 0 < (v :: rest).length := by simp
          exact_mod_cast this
        have hflt : ⌊r * (((v :: rest).length : ℚ))⌋ < ((v :: rest).length : Int) := by
          rw [Int.floor_lt]
          push_cast
          calc r * ((v :: rest).length : ℚ) < 1 * ((v :: rest).length : ℚ) :=
            mul_lt_mul_of_pos_right h1 hnpos
          _ = ((v :: rest).length : ℚ) := one_mul _
        have hfnn : (0 : Int) ≤ ⌊r * (((v :: rest).length : ℚ))⌋ :=
          Int.floor_nonneg.mpr (mul_nonneg h0 hnpos.le)
        have hidx : Int.toNat ⌊r * (((v :: rest).length : ℚ))⌋ < (v :: rest).length := by
          omega
        rw [List.getD_eq_getElem (v :: rest) ⟨"", none⟩ hidx]
        exact List.mem_map_of_mem (fun w => w.code) (List.getElem_mem hidx)

/-- Witness for C7's amended statement: a two-variant unweighted list with
draw `1/2` lands on one of the configured codes, and an absent variant
list returns the default. -/
theorem c7_fallback_function_of_options_and_draw_witness :
    assignVariant ⟨none, some "d"⟩ (1 / 3) = (some "d").getD "default" ∧
    assignVariant ⟨some [⟨"A", none⟩, ⟨"B", none⟩], none⟩ (1 / 2) ∈
      ([⟨"A", none⟩, ⟨"B", none⟩] : List ABTestVariantCfg).map (fun v => v.code) :=
  ⟨(c7_fallback_function_of_options_and_draw.1 (some "d") (1 / 3)).1,
   c7_fallback_function_of_options_and_draw.2 [⟨"A", none⟩, ⟨"B", none⟩] none (1 / 2)
      (by simp) (by simp) (by norm_num) (by norm_num)⟩

/-- One arm of the two-arm multivariate rollout created by the endpoint. -/
structure MultiVariantCfg where
  key : String
  name : String
  rollout : Nat

/-- The varying part of the flag filter configuration built by the
endpoint (the `groups` entry is the constant
`[\x7b properties: [], rollout_percentage: null \x7d]` in this endpoint
version, so only the multivariate arms are modelled). -/
structure FlagFilters where
  variants : List MultiVariantCfg

/-- JS `s.charAt(0).toUpperCase() + s.slice(1)`. -/
def capitalizeFirst (s : String) : String :=
  match s.toList with
  | [] => ""
  | c :: cs => String.mk (c.toUpper :: cs)

/-- A feature flag as mirrored from the external service: the service
assigns the numeric `id`; the endpoint addresses flags by `key`. -/
structure ExternalFlag where
  id : Nat
  key : String
  name : String
  active : Bool
  filters : FlagFilters

/-- The external service's flag store plus its id counter. -/
structure PHState where
  flags : List ExternalFlag
  nextId : Nat

/-- The parsed body of `POST /posthog/feature-flags`; a non-string or
absent field is `none` (the document fields behind `key`/`name` are text
fields). -/
structure FlagBody where
  key : Option String
  name : Option String
  variantName : Option String
  docId : Option JsonValue

/-- JS truthiness of an optional string (`""` is falsy). -/
def strTruthy : Option String → Bool
  | none => false
  | some s => !(s == "")

/-- The endpoint's HTTP outcome: status, the reported `action` and the
flag key it settled on. -/
structure UpsertOutcome where
  status : Nat
  action : Option String
  key : Option String

/-- Key synthesis of the endpoint (src/unnamed/part_003 lines 196-200):
`posthog_ab_<docId>_<uniqueSuffix>` with `uniqueSuffix = Date.now()`,
passed here as `now`. -/
def genFlagKey (body : FlagBody) (now : Nat) : String :=
  if strTruthy body.key then body.key.getD ""
  else "posthog_ab_" ++ optToString body.docId ++ "_" ++ toString now

def genFlagName (body : FlagBody) : String :=
  if strTruthy body.name then body.name.getD ""
  else "A/B Test: " ++ optToString body.docId

def genVariantKey (body : FlagBody) : String :=
  if strTruthy body.variantName then body.variantName.getD "" else "variant"

/-- The two-arm 50/50 multivariate filter built by the endpoint
(src/unnamed/part_003 lines 206-233). -/
def genFilters (body : FlagBody) : FlagFilters :=
  ⟨[⟨"control", "Control", 50⟩,
    ⟨genVariantKey body, capitalizeFirst (genVariantKey body), 50⟩]⟩

/-- The service-side effect of the endpoint's `PATCH`: name, filters and
`active: true` are replaced; `id` and `key` are untouched. -/
def patchFlag (f : ExternalFlag) (name : String) (filters : FlagFilters) : ExternalFlag :=
  { f with name := name, active := true, filters := filters }

/-- Translation of the `POST /posthog/feature-flags` handler
(src/unnamed/part_003 lines 166-330) against the mirrored service state:
400 when both `key` and `docId` are falsy; otherwise the flag key is the
given key or the synthesized one, the handler looks the key up (the
service `GET ?key=` plus the handler's exact `find`), and either PATCHes
the existing flag (action `updated`, status 200) or POSTs a new one with a
fresh id (action `created`, status 201). -/
def upsertFeatureFlag (s : PHState) (now : Nat) (body : FlagBody) :
    PHState × UpsertOutcome :=
  if !(strTruthy body.key) && !(optTruthy body.docId) then (s, ⟨400, none, none⟩)
  else
    match s.flags.find? (fun f => f.key == genFlagKey body now) with
    | some existing =>
        (⟨s.flags.map (fun f =>
            if f.id == existing.id then patchFlag f (genFlagName body) (genFilters body)
            else f), s.nextId⟩,
         ⟨200, some "updated", some (genFlagKey body now)⟩)
    | none =>
        (⟨s.flags ++ [⟨s.nextId, genFlagKey body now, genFlagName body, true,
            genFilters body⟩], s.nextId + 1⟩,
         ⟨201, some "created", some (genFlagKey body now)⟩)

theorem find?_append_none {α : Type} (l1 l2 : List α) (p : α → Bool)
    (h : l1.find? p = none) : (l1 ++ l2).find? p = l2.find? p := by
  induction l1 with
  | nil => rfl
  | cons a t ih =>
      rw [List.find?_cons] at h
      rw [List.cons_append, List.find?_cons]
      cases hpa : p a with
      | true => rw [hpa] at h; exact Option.noConfusion h
      | false => rw [hpa] at h; exact ih h

theorem length_filter_map_key {l : List ExternalFlag} {g : ExternalFlag → ExternalFlag}
    (hg : ∀ f, (g f).key = f.key) (k : String) :
    ((l.map g).filter (fun f => f.key == k)).length =
      (l.filter (fun f => f.key == k)).length := by
  induction l with
  | nil => rfl
  | cons a t ih =>
      rw [List.map_cons, List.filter_cons, List.filter_cons, hg a]
      cases hpa : (a.key == k) with
      | true => simp only [if_true, List.length_cons, ih]
      | false => simp only [Bool.false_eq_true, if_false, ih]

/-- C5: the flag upsert is idempotent per key.  Starting from a service
state holding no flag with key `k`, one call with that key performs a
single create and reports `action = created`; a second identical call
finds the flag, PATCHes it and reports `action = updated`, adding no flag;
exactly one flag with key `k` exists afterwards. -/
theorem c5_upsert_idempotent_per_key (s : PHState) (now1 now2 : Nat) (body : FlagBody)
    (k : String) (hk : body.key = some k) (hne : (k == "") = false)
    (habs : ∀ f ∈ s.flags, (f.key == k) = false) :
    (upsertFeatureFlag s now1 body).2.action = some "created" ∧
    (upsertFeatureFlag (upsertFeatureFlag s now1 body).1 now2 body).2.action =
      some "updated" ∧
    ((upsertFeatureFlag (upsertFeatureFlag s now1 body).1 now2 body).1.flags.filter
      (fun f => f.key == k)).length = 1 ∧
    (upsertFeatureFlag (upsertFeatureFlag s now1 body).1 now2 body).1.flags.length =
      (upsertFeatureFlag s now1 body).1.flags.length := by
  have hst : strTruthy body.key = true := by
    rw [hk]
    simp [strTruthy, hne]
  have hkey1 : genFlagKey body now1 = k := by
    unfold genFlagKey
    rw [hst, if_pos rfl, hk]
    rfl
  have hkey2 : genFlagKey body now2 = k := by
    unfold genFlagKey
    rw [hst, if_pos rfl, hk]
    rfl
  have hguard : (!(strTruthy body.key) && !(optTruthy body.docId)) = false := by
    rw [hst]
    rfl
  have hfind1 : s.flags.find? (fun f => f.key == genFlagKey body now1) = none := by
    rw [hkey1]
    exact List.find?_eq_none.mpr (fun f hf => by simp [habs f hf])
  have h1 : upsertFeatureFlag s now1 body =
      (PHState.mk (s.flags ++ [ExternalFlag.mk s.nextId (genFlagKey body now1)
          (genFlagName body) true (genFilters body)]) (s.nextId + 1),
       UpsertOutcome.mk 201 (some "created") (some (genFlagKey body now1))) := by
    unfold upsertFeatureFlag
    rw [hguard]
    simp only [Bool.false_eq_true, if_false]
    rw [hfind1]
  have hnf : (ExternalFlag.mk s.nextId (genFlagKey body now1) (genFlagName body) true
      (genFilters body)).key = k := hkey1
  have hfind2 : (s.flags ++ [ExternalFlag.mk s.nextId (genFlagKey body now1)
      (genFlagName body) true (genFilters body)]).find?
        (fun f => f.key == genFlagKey body now2) =
      some (ExternalFlag.mk s.nextId (genFlagKey body now1) (genFlagName body) true
        (genFilters body)) := by
    rw [hkey2,
      find?_append_none _ _ _ (List.find?_eq_none.mpr (fun f hf => by simp [habs f hf])),
      List.find?_cons]
    rw [show ((ExternalFlag.mk s.nextId (genFlagKey body now1) (genFlagName body) true
        (genFilters body)).key == k) = true from by rw [hnf]; simp]
  have h2 : upsertFeatureFlag (upsertFeatureFlag s now1 body).1 now2 body =
      (PHState.mk ((s.flags ++ [ExternalFlag.mk s.nextId (genFlagKey body now1)
          (genFlagName body) true (genFilters body)]).map (fun f =>
            if f.id == s.nextId then patchFlag f (genFlagName body) (genFilters body)
            else f)) (s.nextId + 1),
       UpsertOutcome.mk 200 (some "updated") (some (genFlagKey body now2))) := by
    rw [h1]
    unfold upsertFeatureFlag
    rw [hguard]
    simp only [Bool.false_eq_true, if_false]
    rw [hfind2]
  refine ⟨by rw [h1], by rw [h2], ?_, ?_⟩
  · rw [h2]
    simp only
    rw [length_filter_map_key (fun f => by
      by_cases hid : (f.id == s.nextId) = true
      · simp only [hid, if_true]
        rfl
      · simp only [hid, Bool.false_eq_true, if_false]) k]
    rw [List.filter_append,
      List.filter_eq_nil_iff.mpr (fun f hf => by simp [habs f hf]), List.filter_cons]
    rw [show ((ExternalFlag.mk s.nextId (genFlagKey body now1) (genFlagName body) true
        (genFilters body)).key == k) = true from by rw [hnf]; simp]
    rfl
  · rw [h2, h1]
    simp only [List.length_map]

/-- Witness for C5: a concrete double upsert of key `"ff1"` against the
empty service state. -/
theorem c5_upsert_idempotent_per_key_witness :
    (upsertFeatureFlag ⟨[], 0⟩ 1 ⟨some "ff1", none, none, some (.str "d1")⟩).2.action =
      some "created" ∧
    (upsertFeatureFlag (upsertFeatureFlag ⟨[], 0⟩ 1
        ⟨some "ff1", none, none, some (.str "d1")⟩).1 2
        ⟨some "ff1", none, none, some (.str "d1")⟩).2.action = some "updated" ∧
    ((upsertFeatureFlag (upsertFeatureFlag ⟨[], 0⟩ 1
        ⟨some "ff1", none, none, some (.str "d1")⟩).1 2
        ⟨some "ff1", none, none, some (.str "d1")⟩).1.flags.filter
      (fun f => f.key == "ff1")).length = 1 ∧
    (upsertFeatureFlag (upsertFeatureFlag ⟨[], 0⟩ 1
        ⟨some "ff1", none, none, some (.str "d1")⟩).1 2
        ⟨some "ff1", none, none, some (.str "d1")⟩).1.flags.length =
      (upsertFeatureFlag ⟨[], 0⟩ 1 ⟨some "ff1", none, none, some (.str "d1")⟩).1.flags.length :=
  c5_upsert_idempotent_per_key ⟨[], 0⟩ 1 2 ⟨some "ff1", none, none, some (.str "d1")⟩
    "ff1" rfl rfl (fun f hf => absurd hf (List.not_mem_nil f))

/-- JS `as string` narrowing of a document field used for the endpoint
body: the PostHog admin fields are text fields, so a defined value is a
string. -/
def strOfVal : Option JsonValue → Option String
  | some (.str s) => some s
  | _ => none

/-- The hook-side default `(currentData.posthogVariantName as string) ||
'variant'` (src/src/index.ts line 824). -/
def variantNameOfDoc (cur : Doc) : String :=
  match cur.get? "posthogVariantName" with
  | some (.str s) => if s == "" then "variant" else s
  | _ => "variant"

/-- The payload the hook posts to `POST /posthog/feature-flags`
(src/src/index.ts lines 836-846): the document's own flag key and name,
the defaulted variant name, and `originalDoc?._id || originalDoc?.id ||
currentData.id` as the document id. -/
def flagBodyOfDoc (cur : Doc) (orig : Option Doc) : FlagBody :=
  ⟨strOfVal (cur.get? "posthogFeatureFlagKey"),
   strOfVal (cur.get? "posthogFeatureFlagName"),
   some (variantNameOfDoc cur),
   jsOr (orig.bind (fun o => o.get? "_id"))
     (jsOr (orig.bind (fun o => o.get? "id")) (cur.get? "id"))⟩

/-- Translation of `handlePostHogFeatureFlag` (src/src/index.ts lines
814-914) composed with the feature-flag endpoint: the hook builds the
payload, the endpoint creates or updates the flag, and the hook parses the
response for logging only — the persist-back of a generated key is
commented out (lines 826-833), so the returned document is the input
document unchanged. -/
def handlePostHogFeatureFlag (s : PHState) (now : Nat) (cur : Doc) (orig : Option Doc) :
    (PHState × UpsertOutcome) × Doc :=
  (upsertFeatureFlag s now (flagBodyOfDoc cur orig), cur)

/-- A document being enabled without a manually set flag key. -/
def c9Cur : Doc := .cons "enableABTesting" (.bool true) (.cons "id" (.str "d1") .nil)

/-- C9 counterexample: for the document `c9Cur` (id `d1`, no flag key) the
synthesized key is `posthog_ab_d1_<now>`, not `ab_d1_<now>`; the returned
document still carries no `posthogFeatureFlagKey` (nothing is persisted
back); and a second save at a later `Date.now()` synthesizes a fresh key
and performs a second create, leaving two flags instead of reusing one. -/
theorem c9_key_not_persisted_counterexample :
    (handlePostHogFeatureFlag ⟨[], 0⟩ 1 c9Cur none).1.2.key = some "posthog_ab_d1_1" ∧
    "posthog_ab_d1_1" ≠ "ab_d1_1" ∧
    (handlePostHogFeatureFlag ⟨[], 0⟩ 1 c9Cur none).2.get? "posthogFeatureFlagKey" =
      none ∧
    (handlePostHogFeatureFlag (handlePostHogFeatureFlag ⟨[], 0⟩ 1 c9Cur none).1.1 2
        (handlePostHogFeatureFlag ⟨[], 0⟩ 1 c9Cur none).2 none).1.2.key =
      some "posthog_ab_d1_2" ∧
    (handlePostHogFeatureFlag (handlePostHogFeatureFlag ⟨[], 0⟩ 1 c9Cur none).1.1 2
        (handlePostHogFeatureFlag ⟨[], 0⟩ 1 c9Cur none).2 none).1.2.action =
      some "created" ∧
    (handlePostHogFeatureFlag (handlePostHogFeatureFlag ⟨[], 0⟩ 1 c9Cur none).1.1 2
        (handlePostHogFeatureFlag ⟨[], 0⟩ 1 c9Cur none).2 none).1.1.flags.length = 2 :=
  ⟨by decide, by decide, rfl, by decide, by decide, by decide⟩

/-- C9 amended: when the hook runs on a document whose flag key is absent
(or empty) and whose resolved document id is truthy, the endpoint
synthesizes the key `posthog_ab_<docId>_<Date.now()>` and reports it in
the response, but the hook returns the document unchanged — the generated
key is never written back, so a later save does not reuse it. -/
theorem c9_key_synthesized_but_not_persisted (s : PHState) (now : Nat) (cur : Doc)
    (orig : Option Doc)
    (hkey : strTruthy (flagBodyOfDoc cur orig).key = false)
    (hdoc : optTruthy (flagBodyOfDoc cur orig).docId = true) :
    (handlePostHogFeatureFlag s now cur orig).1.2.key =
      some ("posthog_ab_" ++ optToString (flagBodyOfDoc cur orig).docId ++ "_" ++
        toString now) ∧
    (handlePostHogFeatureFlag s now cur orig).2 = cur := by
  have hg : genFlagKey (flagBodyOfDoc cur orig) now =
      "posthog_ab_" ++ optToString (flagBodyOfDoc cur orig).docId ++ "_" ++ toString now := by
    unfold genFlagKey
    rw [hkey]
    simp
  constructor
  · show (upsertFeatureFlag s now (flagBodyOfDoc cur orig)).2.key = _
    unfold upsertFeatureFlag
    rw [hkey, hdoc]
    simp only [Bool.not_false, Bool.not_true, Bool.and_false, Bool.false_eq_true, if_false]
    cases hf : s.flags.find? (fun f => f.key == genFlagKey (flagBodyOfDoc cur orig) now) with
    | some existing => rw [hg]
    | none => rw [hg]
  · rfl

/-- Witness for C9's amended statement at the concrete document `c9Cur`. -/
theorem c9_key_synthesized_but_not_persisted_witness :
    (handlePostHogFeatureFlag ⟨[], 0⟩ 7 c9Cur none).1.2.key =
      some ("posthog_ab_" ++ optToString (flagBodyOfDoc c9Cur none).docId ++ "_" ++
        toString 7) ∧
    (handlePostHogFeatureFlag ⟨[], 0⟩ 7 c9Cur none).2 = c9Cur :=
  c9_key_synthesized_but_not_persisted ⟨[], 0⟩ 7 c9Cur none rfl rfl
